import Mathlib

/-!
Verification of the polymarket-rs-client order construction and
request-authentication core against its design specification.

The Rust sources are shallowly embedded: `rust_decimal::Decimal` is modelled
as an integer mantissa with a decimal scale (the crate stores a 96-bit
unsigned mantissa plus a sign flag; we use an unbounded signed mantissa,
which agrees with the crate on every value the client can produce),
fallible Rust functions returning `Result` become `Except String`, and
panics become `Except.error` values whose message starts with `panic:`.
External capabilities (the wallet signer, the contract registry, address
parsing) are passed as function parameters, following the external-interface
section of the specification.
-/

namespace PolyClob

/-- Model of `rust_decimal::Decimal`: value is `man / 10 ^ scale`.
The crate keeps the scale as stored (it does not strip trailing zeros),
so `scale` is part of the representation, exactly as `Decimal::scale()`. -/
structure Decimal where
  man : ℤ
  scale : ℕ
deriving DecidableEq, Repr

/-- The rational value of a decimal. -/
def Decimal.toRat (d : Decimal) : ℚ := (d.man : ℚ) / 10 ^ d.scale

/-- The rounding strategies used by `orders.rs`
(`MidpointTowardZero`, `ToZero`, `AwayFromZero`). -/
inductive RoundStrategy where
  | midpointTowardZero
  | toZero
  | awayFromZero
deriving DecidableEq, Repr

/-- Round a nonnegative mantissa magnitude `a` at divisor `p` (a power of ten)
with the given strategy; mirrors the magnitude-plus-sign arithmetic of
`rust_decimal` (its mantissa is unsigned, the sign is a separate flag). -/
def mantissaRound (strat : RoundStrategy) (a p : ℕ) : ℕ :=
  let q := a / p
  let r := a % p
  match strat with
  | .toZero => q
  | .awayFromZero => if r = 0 then q else q + 1
  | .midpointTowardZero => if p < 2 * r then q + 1 else q

/-- Model of `Decimal::round_dp_with_strategy`: returns the argument
unchanged when its scale is at most `dp`, otherwise rounds the mantissa
at `10 ^ (scale - dp)` and sets the scale to `dp`. -/
def Decimal.roundDpWith (strat : RoundStrategy) (dp : ℕ) (d : Decimal) : Decimal :=
  if d.scale ≤ dp then d
  else
    let p := 10 ^ (d.scale - dp)
    let mag := mantissaRound strat d.man.natAbs p
    ⟨if d.man < 0 then -(mag : ℤ) else (mag : ℤ), dp⟩

/-- Decimal multiplication: exact, scales add (as in `rust_decimal` whenever
no 96-bit overflow occurs, which holds for all client-produced amounts). -/
def Decimal.mul (a b : Decimal) : Decimal :=
  ⟨a.man * b.man, a.scale + b.scale⟩

/-- Decimal addition: align to the larger scale, exact. -/
def Decimal.add (a b : Decimal) : Decimal :=
  let s := max a.scale b.scale
  ⟨a.man * 10 ^ (s - a.scale) + b.man * 10 ^ (s - b.scale), s⟩

/-- Decimal subtraction: align to the larger scale, exact. -/
def Decimal.sub (a b : Decimal) : Decimal :=
  let s := max a.scale b.scale
  ⟨a.man * 10 ^ (s - a.scale) - b.man * 10 ^ (s - b.scale), s⟩

/-- Value-level order on decimals (`rust_decimal` compares values,
not representations). -/
def Decimal.le (a b : Decimal) : Bool :=
  a.man * 10 ^ b.scale ≤ b.man * 10 ^ a.scale

/-- Strict value-level order on decimals. -/
def Decimal.lt (a b : Decimal) : Bool :=
  a.man * 10 ^ b.scale < b.man * 10 ^ a.scale

/-- Value-level equality on decimals, used for `HashMap` keys
(`rust_decimal`'s `Eq`/`Hash` are value-based). -/
def Decimal.eqv (a b : Decimal) : Bool :=
  a.man * 10 ^ b.scale = b.man * 10 ^ a.scale

/-- The zero decimal `Decimal::ZERO`. -/
def Decimal.zero : Decimal := ⟨0, 0⟩

/-- The decimal `Decimal::ONE`. -/
def Decimal.one : Decimal := ⟨1, 0⟩

/-- `RoundConfig` from `orders.rs`: legal decimal places for
price, size and notional amount. -/
structure RoundConfig where
  price : ℕ
  size : ℕ
  amount : ℕ
deriving DecidableEq, Repr

/-- The static `ROUNDING_CONFIG` table from `orders.rs`, one entry per
supported tick size (0.1, 0.01, 0.001, 0.0001); lookup is by decimal value,
as with the Rust `HashMap<Decimal, RoundConfig>`. -/
def roundingConfig (tick : Decimal) : Option RoundConfig :=
  if tick.eqv ⟨1, 1⟩ then some ⟨1, 2, 3⟩
  else if tick.eqv ⟨1, 2⟩ then some ⟨2, 2, 4⟩
  else if tick.eqv ⟨1, 3⟩ then some ⟨3, 2, 5⟩
  else if tick.eqv ⟨1, 4⟩ then some ⟨4, 2, 6⟩
  else none

/-- Order side, `Side` in `data.rs` (`BUY = 0`, `SELL = 1`). -/
inductive Side where
  | BUY
  | SELL
deriving DecidableEq, Repr

/-- `Side::as_str`. -/
def Side.asStr : Side → String
  | .BUY => "BUY"
  | .SELL => "SELL"

/-- `Side` as the numeric wire value. -/
def Side.toNat : Side → ℕ
  | .BUY => 0
  | .SELL => 1

/-- `OrderBuilder::fix_amount_rounding`: when the amount carries more scale
digits than `round_config.amount`, first round away from zero at
`amount + 4` places, then, if the scale still exceeds `amount`, truncate
toward zero at `amount` places. -/
def fixAmountRounding (cfg : RoundConfig) (amt : Decimal) : Decimal :=
  if cfg.amount < amt.scale then
    let a := amt.roundDpWith .awayFromZero (cfg.amount + 4)
    if cfg.amount < a.scale then a.roundDpWith .toZero cfg.amount else a
  else amt

/-- `decimal_to_token_u32`: multiply by `1e6`, round half-toward-zero to an
integer when a fractional scale remains, and convert to `u32`; the
`expect` panic on a value outside `u32` becomes `none`. -/
def decimalToTokenU32 (amt : Decimal) : Option ℕ :=
  let a : Decimal := ⟨1000000 * amt.man, amt.scale⟩
  let a := if 0 < a.scale then a.roundDpWith .midpointTowardZero 0 else a
  if 0 ≤ a.man ∧ a.man < 2 ^ 32 then some a.man.toNat else none

/-- `OrderBuilder::clamp_amount_precision`: BUY clamps the maker (quote) leg
to 2 decimal places and the taker (token) leg to 4; SELL swaps the roles. -/
def clampAmountPrecision (side : Side) (maker taker : Decimal) : Decimal × Decimal :=
  match side with
  | .BUY => (maker.roundDpWith .midpointTowardZero 2, taker.roundDpWith .midpointTowardZero 4)
  | .SELL => (maker.roundDpWith .midpointTowardZero 4, taker.roundDpWith .midpointTowardZero 2)

/-- The pair of `decimal_to_token_u32` calls closing `get_order_amounts`:
both legs must convert (a failed conversion is a Rust panic, `none` here). -/
def pairTokens (maker taker : Decimal) : Option (ℕ × ℕ) :=
  match decimalToTokenU32 maker, decimalToTokenU32 taker with
  | some m, some t => some (m, t)
  | _, _ => none

/-- `OrderBuilder::get_order_amounts` for a limit order. -/
def getOrderAmounts (side : Side) (size price : Decimal) (cfg : RoundConfig) :
    Option (ℕ × ℕ) :=
  let rawPrice := price.roundDpWith .midpointTowardZero cfg.price
  match side with
  | .BUY =>
    let rawTakerAmt := size.roundDpWith .toZero cfg.size
    let rawMakerAmt := fixAmountRounding cfg (rawTakerAmt.mul rawPrice)
    let mt := clampAmountPrecision .BUY rawMakerAmt rawTakerAmt
    pairTokens mt.1 mt.2
  | .SELL =>
    let rawMakerAmt := size.roundDpWith .toZero cfg.size
    let rawTakerAmt := fixAmountRounding cfg (rawMakerAmt.mul rawPrice)
    let mt := clampAmountPrecision .SELL rawMakerAmt rawTakerAmt
    pairTokens mt.1 mt.2

/-- Strip trailing zeros from a mantissa/scale pair (division results in
`rust_decimal` carry no trailing zeros). -/
def normalizeAux : ℤ → ℕ → ℤ × ℕ
  | m, 0 => (m, 0)
  | m, s + 1 => if m % 10 = 0 then normalizeAux (m / 10) s else (m, s + 1)

/-- Model of `rust_decimal` division: the exact quotient is computed to 28
fractional digits, the last digit rounds half away from zero, and trailing
zeros are stripped.  Division by zero (a panic in Rust) yields junk; no
claim depends on it. -/
def Decimal.div (a b : Decimal) : Decimal :=
  let A := a.man.natAbs * 10 ^ (28 + b.scale)
  let B := b.man.natAbs * 10 ^ a.scale
  let q := A / B
  let r := A % B
  let mag := if B ≤ 2 * r then q + 1 else q
  let neg := (a.man < 0) ≠ (b.man < 0)
  let ms := normalizeAux (mag : ℤ) 28
  ⟨if neg then -ms.1 else ms.1, ms.2⟩

/-- `OrderBuilder::get_market_order_amounts`. -/
def getMarketOrderAmounts (amount price : Decimal) (cfg : RoundConfig) :
    Option (ℕ × ℕ) :=
  let rawMakerAmt := amount.roundDpWith .toZero cfg.size
  let rawPrice := price.roundDpWith .midpointTowardZero cfg.price
  let rawTakerAmt := fixAmountRounding cfg (rawMakerAmt.div rawPrice)
  let mt := clampAmountPrecision .BUY rawMakerAmt rawTakerAmt
  pairTokens mt.1 mt.2

/-- One order-book level, `OrderSummary` in `data.rs`. -/
structure OrderSummary where
  price : Decimal
  size : Decimal
deriving DecidableEq, Repr

/-- The loop of `OrderBuilder::calculate_market_price`, with the running
sum made explicit. -/
def calcMarketPriceAux (amountToMatch : Decimal) :
    Decimal → List OrderSummary → Except String Decimal
  | _, [] => .error "Not enough liquidity to create market order"
  | sum, p :: ps =>
    let sum2 := sum.add (p.size.mul p.price)
    if amountToMatch.le sum2 then .ok p.price
    else calcMarketPriceAux amountToMatch sum2 ps

/-- `OrderBuilder::calculate_market_price`: walk the levels accumulating
`size * price`, returning the price of the first level at which the sum
reaches `amount_to_match`, and a liquidity error if the levels run out. -/
def calculateMarketPrice (positions : List OrderSummary) (amountToMatch : Decimal) :
    Except String Decimal :=
  calcMarketPriceAux amountToMatch Decimal.zero positions

/-- `ClobClient::is_price_in_range`: the legal interval is
`[tick_size, 1 - tick_size]`. -/
def isPriceInRange (price tickSize : Decimal) : Bool :=
  let minPrice := tickSize
  let maxPrice := Decimal.one.sub tickSize
  if price.lt minPrice || maxPrice.lt price then false else true

end PolyClob

namespace PolyClob

/-! ### Decimal rendering and JSON canonicalization -/

/-- Digit characters of a natural number, with structural fuel (the fuel
`n + 1` always suffices since the argument shrinks by a factor of ten). -/
def decCharsAux : ℕ → ℕ → List Char
  | 0, _ => []
  | fuel + 1, n =>
    if n < 10 then [Char.ofNat (48 + n)]
    else decCharsAux fuel (n / 10) ++ [Char.ofNat (48 + n % 10)]

/-- Decimal digit characters of a natural number (the output of Rust's
integer `to_string`). -/
def decChars (n : ℕ) : List Char := decCharsAux (n + 1) n

/-- Rust integer formatting (`u32::to_string`, `u64::to_string`,
`U256::to_string`): plain decimal digits. -/
def toDecString (n : ℕ) : String := String.mk (decChars n)

/-- A JSON value, covering the shapes the client serializes. -/
inductive Json where
  | null
  | bool (b : Bool)
  | num (n : ℕ)
  | str (s : String)
  | arr (elems : List Json)
  | obj (fields : List (String × Json))
deriving Repr

/-- Lowercase hexadecimal digit. -/
def hexDigit (n : ℕ) : Char :=
  if n < 10 then Char.ofNat (48 + n) else Char.ofNat (87 + n)

/-- JSON string escaping as performed by `serde_json`. -/
def escapeChar (c : Char) : List Char :=
  if c = '"' then ['\\', '"']
  else if c = '\\' then ['\\', '\\']
  else if c.toNat = 8 then ['\\', 'b']
  else if c.toNat = 12 then ['\\', 'f']
  else if c = '\n' then ['\\', 'n']
  else if c = '\r' then ['\\', 'r']
  else if c = '\t' then ['\\', 't']
  else if c.toNat < 32 then
    ['\\', 'u', '0', '0', hexDigit (c.toNat / 16), hexDigit (c.toNat % 16)]
  else [c]

/-- Escape every character of a JSON string body. -/
def jsonEscape (s : String) : String := String.mk (s.data.map escapeChar).flatten

mutual

/-- Canonical JSON formatting used by `format_hmac_body`
(`serde_json_fmt` with `comma(", ")` and `colon(": ")`, otherwise compact). -/
def formatJson : Json → String
  | .null => "null"
  | .bool true => "true"
  | .bool false => "false"
  | .num n => toDecString n
  | .str s => "\"" ++ jsonEscape s ++ "\""
  | .arr xs => "[" ++ formatJsonList xs ++ "]"
  | .obj fs => "\x7b" ++ formatJsonFields fs ++ "\x7d"

/-- Array elements joined with `", "`. -/
def formatJsonList : List Json → String
  | [] => ""
  | [x] => formatJson x
  | x :: y :: xs => formatJson x ++ ", " ++ formatJsonList (y :: xs)

/-- Object entries joined with `", "`, key and value joined with `": "`. -/
def formatJsonFields : List (String × Json) → String
  | [] => ""
  | [(k, v)] => "\"" ++ jsonEscape k ++ "\": " ++ formatJson v
  | (k, v) :: f :: fs =>
    "\"" ++ jsonEscape k ++ "\": " ++ formatJson v ++ ", " ++ formatJsonFields (f :: fs)

end

/-- `format_hmac_body` from `utils.rs`: canonical serialization of a request
body (total here; the Rust `Result` only fails on unserializable values). -/
def formatHmacBody (body : Json) : String := formatJson body

/-- Field lookup in a serialized JSON object. -/
def jsonLookup (key : String) : Json → Option Json
  | .obj fs => fs.lookup key
  | _ => none

/-! ### SHA-256, HMAC and base64 (the `sha2`/`hmac`/`base64` crates,
embedded from the FIPS 180-4 / RFC 2104 / RFC 4648 algorithms they
implement) -/

/-- Truncate to a 32-bit word. -/
def w32 (x : ℕ) : ℕ := x % 4294967296

/-- Rotate a 32-bit word right by `n`. -/
def rotr (n x : ℕ) : ℕ := w32 ((x >>> n) ||| (x <<< (32 - n)))

/-- SHA-256 `Ch` function. -/
def shaCh (x y z : ℕ) : ℕ := (x &&& y) ^^^ ((x ^^^ 4294967295) &&& z)

/-- SHA-256 `Maj` function. -/
def shaMaj (x y z : ℕ) : ℕ := (x &&& y) ^^^ (x &&& z) ^^^ (y &&& z)

/-- SHA-256 big sigma 0. -/
def bSig0 (x : ℕ) : ℕ := rotr 2 x ^^^ rotr 13 x ^^^ rotr 22 x

/-- SHA-256 big sigma 1. -/
def bSig1 (x : ℕ) : ℕ := rotr 6 x ^^^ rotr 11 x ^^^ rotr 25 x

/-- SHA-256 small sigma 0. -/
def sSig0 (x : ℕ) : ℕ := rotr 7 x ^^^ rotr 18 x ^^^ (x >>> 3)

/-- SHA-256 small sigma 1. -/
def sSig1 (x : ℕ) : ℕ := rotr 17 x ^^^ rotr 19 x ^^^ (x >>> 10)

/-- The SHA-256 round constants. -/
def shaK : List ℕ :=
  [1116352408, 1899447441, 3049323471, 3921009573, 961987163,
   1508970993, 2453635748, 2870763221, 3624381080, 310598401,
   607225278, 1426881987, 1925078388, 2162078206, 2614888103,
   3248222580, 3835390401, 4022224774, 264347078, 604807628,
   770255983, 1249150122, 1555081692, 1996064986, 2554220882,
   2821834349, 2952996808, 3210313671, 3336571891, 3584528711,
   113926993, 338241895, 666307205, 773529912, 1294757372,
   1396182291, 1695183700, 1986661051, 2177026350, 2456956037,
   2730485921, 2820302411, 3259730800, 3345764771, 3516065817,
   3600352804, 4094571909, 275423344, 430227734, 506948616,
   659060556, 883997877, 958139571, 1322822218, 1537002063,
   1747873779, 1955562222, 2024104815, 2227730452, 2361852424,
   2428436474, 2756734187, 3204031479, 3329325298]

/-- The SHA-256 initial hash state. -/
def shaH0 : List ℕ :=
  [1779033703, 3144134277, 1013904242, 2773480762, 1359893119,
   2600822924, 528734635, 1541459225]

/-- Big-endian 8-byte rendering of a length in bits. -/
def be64 (n : ℕ) : List ℕ :=
  [w32 (n >>> 56) % 256, (n >>> 48) % 256, (n >>> 40) % 256, (n >>> 32) % 256,
   (n >>> 24) % 256, (n >>> 16) % 256, (n >>> 8) % 256, n % 256]

/-- SHA-256 message padding. -/
def shaPad (msg : List ℕ) : List ℕ :=
  let l := msg.length
  let zeros := (64 + 56 - (l + 1) % 64) % 64
  msg ++ 0x80 :: List.replicate zeros 0 ++ be64 (8 * l)

/-- Group bytes into big-endian 32-bit words. -/
def bytesToWords : List ℕ → List ℕ
  | a :: b :: c :: d :: rest =>
    (a * 16777216 + b * 65536 + c * 256 + d) :: bytesToWords rest
  | _ => []

/-- Render 32-bit words as big-endian bytes. -/
def wordsToBytes : List ℕ → List ℕ
  | [] => []
  | w :: ws => (w >>> 24) % 256 :: (w >>> 16) % 256 :: (w >>> 8) % 256 :: w % 256 :: wordsToBytes ws

/-- Split a word list into 16-word chunks, with structural fuel (the fuel
`l.length` always suffices since each step drops at least one element). -/
def group16Aux : ℕ → List ℕ → List (List ℕ)
  | 0, _ => []
  | fuel + 1, l => if l = [] then [] else l.take 16 :: group16Aux fuel (l.drop 16)

/-- Split a word list into 16-word chunks. -/
def group16 (l : List ℕ) : List (List ℕ) := group16Aux l.length l

/-- Extend the 16 message words to 64 by `n` scheduling steps. -/
def scheduleFrom (w : Array ℕ) : ℕ → Array ℕ
  | 0 => w
  | n + 1 =>
    let t := w.size
    scheduleFrom
      (w.push (w32 (sSig1 (w.getD (t - 2) 0) + w.getD (t - 7) 0 +
        sSig0 (w.getD (t - 15) 0) + w.getD (t - 16) 0))) n

/-- The SHA-256 working state. -/
structure ShaState where
  a : ℕ
  b : ℕ
  c : ℕ
  d : ℕ
  e : ℕ
  f : ℕ
  g : ℕ
  h : ℕ
deriving Repr

/-- One SHA-256 compression round with constant and scheduled word `kw`. -/
def compressStep (st : ShaState) (kw : ℕ × ℕ) : ShaState :=
  let t1 := w32 (st.h + bSig1 st.e + shaCh st.e st.f st.g + kw.1 + kw.2)
  let t2 := w32 (bSig0 st.a + shaMaj st.a st.b st.c)
  ⟨w32 (t1 + t2), st.a, st.b, st.c, w32 (st.d + t1), st.e, st.f, st.g⟩

/-- Process one 16-word chunk against the running hash value. -/
def processChunk (hs : List ℕ) (chunk : List ℕ) : List ℕ :=
  let w := scheduleFrom (Array.mk chunk) 48
  let ws := (List.range 64).map fun i => w.getD i 0
  let st0 : ShaState :=
    ⟨hs.getD 0 0, hs.getD 1 0, hs.getD 2 0, hs.getD 3 0,
     hs.getD 4 0, hs.getD 5 0, hs.getD 6 0, hs.getD 7 0⟩
  let st := (List.zip shaK ws).foldl compressStep st0
  [w32 (hs.getD 0 0 + st.a), w32 (hs.getD 1 0 + st.b), w32 (hs.getD 2 0 + st.c),
   w32 (hs.getD 3 0 + st.d), w32 (hs.getD 4 0 + st.e), w32 (hs.getD 5 0 + st.f),
   w32 (hs.getD 6 0 + st.g), w32 (hs.getD 7 0 + st.h)]

/-- SHA-256 of a byte sequence. -/
def sha256 (msg : List ℕ) : List ℕ :=
  wordsToBytes ((group16 (bytesToWords (shaPad msg))).foldl processChunk shaH0)

/-- HMAC-SHA256 (RFC 2104), as computed by `Hmac<Sha256>`. -/
def hmacSha256 (key msg : List ℕ) : List ℕ :=
  let k0 := if 64 < key.length then sha256 key else key
  let k := k0 ++ List.replicate (64 - k0.length) 0
  sha256 ((k.map fun b => b ^^^ 0x5c) ++ sha256 ((k.map fun b => b ^^^ 0x36) ++ msg))

/-- The URL-safe base64 alphabet (RFC 4648 section 5). -/
def b64Alphabet : List Char :=
  "ABCDEFGHIJKLMNOPQRSTUVWXYZabcdefghijklmnopqrstuvwxyz0123456789-_".data

/-- The alphabet character for a 6-bit value. -/
def b64Char (n : ℕ) : Char := b64Alphabet.getD n 'A'

/-- Encode byte triples (with RFC 4648 padding) into base64 characters. -/
def b64EncodeGroups : List ℕ → List Char
  | b0 :: b1 :: b2 :: rest =>
    b64Char (b0 >>> 2) :: b64Char (((b0 &&& 3) <<< 4) ||| (b1 >>> 4)) ::
      b64Char (((b1 &&& 15) <<< 2) ||| (b2 >>> 6)) :: b64Char (b2 &&& 63) ::
      b64EncodeGroups rest
  | [b0, b1] =>
    [b64Char (b0 >>> 2), b64Char (((b0 &&& 3) <<< 4) ||| (b1 >>> 4)),
     b64Char ((b1 &&& 15) <<< 2), '=']
  | [b0] => [b64Char (b0 >>> 2), b64Char ((b0 &&& 3) <<< 4), '=', '=']
  | [] => []

/-- URL-safe base64 encoding with padding
(`base64::engine::general_purpose::URL_SAFE`). -/
def base64UrlEncode (bs : List ℕ) : String := String.mk (b64EncodeGroups bs)

/-- The 6-bit value of an alphabet character, if any. -/
def b64ValueAux : List Char → ℕ → Char → Option ℕ
  | [], _, _ => none
  | a :: rest, i, c => if a = c then some i else b64ValueAux rest (i + 1) c

/-- Look a character up in the URL-safe alphabet. -/
def b64Value (c : Char) : Option ℕ := b64ValueAux b64Alphabet 0 c

/-- Decode base64 quartets; padding may close only the final quartet and
trailing bits must be zero, as in the crate's canonical decoding mode. -/
def b64DecodeGroups : List Char → Option (List ℕ)
  | [] => some []
  | c0 :: c1 :: c2 :: c3 :: rest =>
    match b64Value c0, b64Value c1 with
    | some v0, some v1 =>
      if rest.isEmpty ∧ c2 = '=' ∧ c3 = '=' then
        if v1 % 16 = 0 then some [(v0 <<< 2) ||| (v1 >>> 4)] else none
      else if rest.isEmpty ∧ c3 = '=' then
        match b64Value c2 with
        | some v2 =>
          if v2 % 4 = 0 then
            some [(v0 <<< 2) ||| (v1 >>> 4), ((v1 &&& 15) <<< 4) ||| (v2 >>> 2)]
          else none
        | none => none
      else
        match b64Value c2, b64Value c3 with
        | some v2, some v3 =>
          (b64DecodeGroups rest).map fun bs =>
            ((v0 <<< 2) ||| (v1 >>> 4)) :: (((v1 &&& 15) <<< 4) ||| (v2 >>> 2)) ::
              (((v2 &&& 3) <<< 6) ||| v3) :: bs
        | _, _ => none
    | _, _ => none
  | _ => none

/-- URL-safe base64 decoding with required canonical padding. -/
def base64UrlDecode (s : String) : Option (List ℕ) :=
  if s.data.length % 4 = 0 then b64DecodeGroups s.data else none

/-- UTF-8 bytes of one character. -/
def charUtf8 (c : Char) : List ℕ :=
  let n := c.toNat
  if n < 128 then [n]
  else if n < 2048 then [192 ||| (n >>> 6), 128 ||| (n &&& 63)]
  else if n < 65536 then
    [224 ||| (n >>> 12), 128 ||| ((n >>> 6) &&& 63), 128 ||| (n &&& 63)]
  else
    [240 ||| (n >>> 18), 128 ||| ((n >>> 12) &&& 63),
     128 ||| ((n >>> 6) &&& 63), 128 ||| (n &&& 63)]

/-- UTF-8 bytes of a string (Rust `str::as_bytes`). -/
def strBytes (s : String) : List ℕ := (s.data.map charUtf8).flatten

end PolyClob

namespace PolyClob

/-! ### HMAC signing and L2 headers (`utils.rs`, `headers.rs`) -/

/-- `build_hmac_signature_from_str` from `utils.rs`: base64-decode the
secret, build `timestamp || method || path` with the body string appended
when present, and return the URL-safe base64 HMAC-SHA256 signature. -/
def buildHmacSignatureFromStr (secret : String) (timestamp : ℕ)
    (method reqPath : String) (body : Option String) : Except String String :=
  match base64UrlDecode secret with
  | none => .error "Can't decode secret to base64"
  | some decoded =>
    let message :=
      match body with
      | none => toDecString timestamp ++ method ++ reqPath
      | some s => toDecString timestamp ++ method ++ reqPath ++ s
    .ok (base64UrlEncode (hmacSha256 decoded (strBytes message)))

/-- `build_hmac_signature` from `utils.rs`: canonicalize the optional body
and delegate to the string version. -/
def buildHmacSignature (secret : String) (timestamp : ℕ)
    (method reqPath : String) (body : Option Json) : Except String String :=
  buildHmacSignatureFromStr secret timestamp method reqPath (body.map formatHmacBody)

/-- `ApiCreds` from `data.rs`. -/
structure ApiCreds where
  apiKey : String
  secret : String
  passphrase : String

/-- `create_l2_headers` from `headers.rs`; the signer address and the clock
reading are parameters (in Rust they come from the wallet capability and
`get_current_unix_time_secs`). -/
def createL2Headers (address : String) (timestamp : ℕ) (apiCreds : ApiCreds)
    (method reqPath : String) (body : Option Json) :
    Except String (List (String × String) × Option String) :=
  let bodyStr := body.map formatHmacBody
  match buildHmacSignatureFromStr apiCreds.secret timestamp method reqPath bodyStr with
  | .error e => .error e
  | .ok hmacSignature =>
    .ok ([("poly_address", address),
          ("poly_signature", hmacSignature),
          ("poly_timestamp", toDecString timestamp),
          ("poly_api_key", apiCreds.apiKey),
          ("poly_passphrase", apiCreds.passphrase)], bodyStr)

/-! ### The order builder (`orders.rs`) -/

/-- `ExtraOrderArgs` from `data.rs` (nonce is a `U256`, fee a `u32`). -/
structure ExtraOrderArgs where
  feeRateBps : ℕ
  nonce : ℕ
  taker : String

/-- Modelled from the spec: the pre-signature `Order` record of section 3
(`eth_utils.rs` is not part of the provided sources); all numeric fields
are unsigned integers fitting a 256-bit representation. -/
structure OrderRecord where
  salt : ℕ
  maker : String
  signer : String
  taker : String
  tokenId : ℕ
  makerAmount : ℕ
  takerAmount : ℕ
  expiration : ℕ
  nonce : ℕ
  feeRateBps : ℕ
  side : ℕ
  signatureType : ℕ

/-- `SignedOrderRequest` from `orders.rs`, with each field at the Rust
declaration type: `salt: u64` and `signature_type: u8` are numbers, every
other non-address field is a `String`. -/
structure SignedOrderRequest where
  salt : ℕ
  maker : String
  signer : String
  taker : String
  tokenId : String
  makerAmount : String
  takerAmount : String
  expiration : String
  nonce : String
  feeRateBps : String
  side : String
  signatureType : ℕ
  signature : String

/-- The `serde` JSON wire form of `SignedOrderRequest`: camelCase keys in
declaration order; `u64`/`u8` fields serialize as JSON numbers, `String`
fields as JSON strings. -/
def serializeSignedOrderRequest (r : SignedOrderRequest) : Json :=
  Json.obj
    [("salt", .num r.salt),
     ("maker", .str r.maker),
     ("signer", .str r.signer),
     ("taker", .str r.taker),
     ("tokenId", .str r.tokenId),
     ("makerAmount", .str r.makerAmount),
     ("takerAmount", .str r.takerAmount),
     ("expiration", .str r.expiration),
     ("nonce", .str r.nonce),
     ("feeRateBps", .str r.feeRateBps),
     ("side", .str r.side),
     ("signatureType", .num r.signatureType),
     ("signature", .str r.signature)]

/-- Numeric value of a digit string. -/
def decValue (cs : List Char) : ℕ :=
  cs.foldl (fun a c => 10 * a + (c.toNat - 48)) 0

/-- `U256::from_str_radix(token_id, 10)`: accepts a nonempty string of
decimal digits whose value fits 256 bits. -/
def parseU256Dec (s : String) : Option ℕ :=
  if s.data ≠ [] ∧ s.data.all Char.isDigit then
    let n := decValue s.data
    if n < 2 ^ 256 then some n else none
  else none

/-- `OrderBuilder::build_signed_order`.  The wallet signer, address parsing
(`Address::from_str`) and the salt source (`generate_seed`) are parameters;
address strings are carried verbatim (`to_checksum` is the identity on the
already-checksummed strings the model passes around). -/
def buildSignedOrder (funder signerAddress : String) (sigType : ℕ)
    (sign : OrderRecord → ℕ → String → Except String String)
    (parseAddr : String → Option String) (seed : ℕ)
    (tokenId : String) (side : Side) (chainId : ℕ) (exchange : String)
    (makerAmount takerAmount : ℕ) (expiration : ℕ) (extras : ExtraOrderArgs) :
    Except String SignedOrderRequest :=
  match parseAddr extras.taker with
  | none => .error "Invalid taker address"
  | some takerAddress =>
    match parseU256Dec tokenId with
    | none => .error "Incorrect tokenId format"
    | some u256TokenId =>
      let order : OrderRecord :=
        ⟨seed, funder, signerAddress, takerAddress, u256TokenId, makerAmount,
         takerAmount, expiration, extras.nonce, extras.feeRateBps,
         side.toNat, sigType⟩
      match sign order chainId exchange with
      | .error e => .error e
      | .ok signature =>
        .ok ⟨seed, funder, signerAddress, takerAddress, tokenId,
             toDecString makerAmount, toDecString takerAmount,
             toDecString expiration, toDecString extras.nonce,
             toDecString extras.feeRateBps, side.asStr, sigType, signature⟩

/-- Modelled from the spec: the contract-registry entry of section 6
(`config.rs` is not part of the provided sources). -/
structure ContractConfig where
  exchange : String
  collateral : String
  conditionalTokens : String

/-- `CreateOrderOptions` from `data.rs`. -/
structure CreateOrderOptions where
  tickSize : Option Decimal
  negRisk : Option Bool

/-- `OrderArgs` from `data.rs`. -/
structure OrderArgs where
  tokenId : String
  price : Decimal
  size : Decimal
  side : Side

/-- `MarketOrderArgs` from `data.rs`. -/
structure MarketOrderArgs where
  tokenId : String
  amount : Decimal

/-- `OrderBuilder::create_order`, with the contract registry
(`get_contract_config`, modelled from the spec as a
`(chain_id, neg_risk)` lookup) passed as a parameter.  Steps appear in the
Rust evaluation order: tick-size check and amount rounding first, then the
neg-risk check, the registry lookup, exchange-address parsing, and signing. -/
def createOrder (registry : ℕ → Bool → Option ContractConfig)
    (sign : OrderRecord → ℕ → String → Except String String)
    (parseAddr : String → Option String)
    (funder signerAddress : String) (sigType : ℕ) (seed : ℕ)
    (chainId : ℕ) (orderArgs : OrderArgs) (expiration : ℕ)
    (extras : ExtraOrderArgs) (options : CreateOrderOptions) :
    Except String SignedOrderRequest :=
  match options.tickSize with
  | none => .error "Cannot create order without tick size"
  | some tick =>
    match roundingConfig tick with
    | none => .error "panic: tick size not in ROUNDING_CONFIG"
    | some cfg =>
      match getOrderAmounts orderArgs.side orderArgs.size orderArgs.price cfg with
      | none => .error "panic: could not convert decimal amount to u32"
      | some amounts =>
        match options.negRisk with
        | none => .error "Cannot create order without neg_risk"
        | some negRisk =>
          match registry chainId negRisk with
          | none => .error "No contract found with given chain_id and neg_risk"
          | some contractConfig =>
            match parseAddr contractConfig.exchange with
            | none => .error "Invalid exchange address"
            | some exchangeAddress =>
              buildSignedOrder funder signerAddress sigType sign parseAddr seed
                orderArgs.tokenId orderArgs.side chainId exchangeAddress
                amounts.1 amounts.2 expiration extras

/-- `OrderBuilder::create_market_order` (side is always BUY, expiration 0). -/
def createMarketOrder (registry : ℕ → Bool → Option ContractConfig)
    (sign : OrderRecord → ℕ → String → Except String String)
    (parseAddr : String → Option String)
    (funder signerAddress : String) (sigType : ℕ) (seed : ℕ)
    (chainId : ℕ) (marketArgs : MarketOrderArgs) (price : Decimal)
    (extras : ExtraOrderArgs) (options : CreateOrderOptions) :
    Except String SignedOrderRequest :=
  match options.tickSize with
  | none => .error "Cannot create order without tick size"
  | some tick =>
    match roundingConfig tick with
    | none => .error "panic: tick size not in ROUNDING_CONFIG"
    | some cfg =>
      match getMarketOrderAmounts marketArgs.amount price cfg with
      | none => .error "panic: could not convert decimal amount to u32"
      | some amounts =>
        match options.negRisk with
        | none => .error "Cannot create order without neg_risk"
        | some negRisk =>
          match registry chainId negRisk with
          | none => .error "No contract found with given chain_id and neg_risk"
          | some contractConfig =>
            match parseAddr contractConfig.exchange with
            | none => .error "Invalid exchange address"
            | some exchangeAddress =>
              buildSignedOrder funder signerAddress sigType sign parseAddr seed
                marketArgs.tokenId .BUY chainId exchangeAddress
                amounts.1 amounts.2 0 extras

/-- `ClobClient::create_order` after option resolution: the price-range
guard runs before the order builder (and hence before any signing). -/
def clientCreateOrder (registry : ℕ → Bool → Option ContractConfig)
    (sign : OrderRecord → ℕ → String → Except String String)
    (parseAddr : String → Option String)
    (funder signerAddress : String) (sigType : ℕ) (seed : ℕ)
    (chainId : ℕ) (orderArgs : OrderArgs) (expiration : ℕ)
    (extras : ExtraOrderArgs) (resolvedTick : Decimal) (negRisk : Bool) :
    Except String SignedOrderRequest :=
  if isPriceInRange orderArgs.price resolvedTick then
    createOrder registry sign parseAddr funder signerAddress sigType seed
      chainId orderArgs expiration extras ⟨some resolvedTick, some negRisk⟩
  else .error "Price is not in range of tick_size"

end PolyClob

namespace PolyClob

/-! ### Specification-side definitions

These follow the wording of the design document, stated over exact rational
values rather than mantissa/scale pairs, so that the refinement theorems
below compare two independent formulations. -/

/-- Rounding a rational to an integer, per strategy, stated with floor and
ceiling: truncation drops the fractional part toward zero, away-from-zero
rounds any fractional remainder up in magnitude, and half-toward-zero picks
the nearest integer with ties resolved toward zero. -/
def ratRoundToInt : RoundStrategy → ℚ → ℤ
  | .toZero, x => if 0 ≤ x then ⌊x⌋ else -⌊-x⌋
  | .awayFromZero, x => if 0 ≤ x then ⌈x⌉ else -⌈-x⌉
  | .midpointTowardZero, x => if 0 ≤ x then ⌈x - 1 / 2⌉ else -⌈-x - 1 / 2⌉

/-- Rounding a rational to `dp` decimal places, per strategy. -/
def ratRoundDp (strat : RoundStrategy) (dp : ℕ) (x : ℚ) : ℚ :=
  (ratRoundToInt strat (x * 10 ^ dp) : ℚ) / 10 ^ dp

/-- "Has more fractional digits than `k` allows": scaling by `10 ^ k`
still leaves a non-integer. -/
def ratHasFracBeyond (k : ℕ) (x : ℚ) : Bool := (x * 10 ^ k).den ≠ 1

/-- The amount-precision repair of the specification: when the notional has
more than `amount_dp` fractional digits, round generously (away from zero)
at `amount_dp + 4` places, and if digits still exceed `amount_dp`, truncate
toward zero at exactly `amount_dp` places. -/
def specFixAmount (cfg : RoundConfig) (x : ℚ) : ℚ :=
  if ratHasFracBeyond cfg.amount x then
    let a := ratRoundDp .awayFromZero (cfg.amount + 4) x
    if ratHasFracBeyond cfg.amount a then ratRoundDp .toZero cfg.amount a else a
  else x

/-- Final conversion of the specification: multiply by `10 ^ 6`; if a
fractional remainder remains, round half-toward-zero to the nearest
integer; fatal (`none`) when the result does not fit an unsigned 32-bit
integer. -/
def specToTokenUnits (x : ℚ) : Option ℕ :=
  let y := x * 1000000
  let z := if y.den = 1 then y.num else ratRoundToInt .midpointTowardZero y
  if 0 ≤ z ∧ z < 2 ^ 32 then some z.toNat else none

/-- Both specification legs converted to integer token units. -/
def specPairTokens (maker taker : ℚ) : Option (ℕ × ℕ) :=
  match specToTokenUnits maker, specToTokenUnits taker with
  | some m, some t => some (m, t)
  | _, _ => none

/-- The BUY amount pipeline exactly as the specification words it:
price rounded half-toward-zero to `price_dp` places, size truncated to
`size_dp` places, notional = size * price repaired at `amount_dp`, maker
leg clamped to 2 places and taker leg to 4 (half-toward-zero), then both
converted to integer token units. -/
def specBuyAmounts (cfg : RoundConfig) (price size : ℚ) : Option (ℕ × ℕ) :=
  let roundedPrice := ratRoundDp .midpointTowardZero cfg.price price
  let roundedSize := ratRoundDp .toZero cfg.size size
  let notional := roundedSize * roundedPrice
  let repaired := specFixAmount cfg notional
  let makerLeg := ratRoundDp .midpointTowardZero 2 repaired
  let takerLeg := ratRoundDp .midpointTowardZero 4 roundedSize
  specPairTokens makerLeg takerLeg

/-- Notional contributed by one book level. -/
def levelNotional (p : OrderSummary) : ℚ := p.size.toRat * p.price.toRat

/-- Running notional after the first `k` book levels. -/
def prefixNotional (ps : List OrderSummary) (k : ℕ) : ℚ :=
  ((ps.take k).map levelNotional).sum

/-- Whether an `Except` result is an error. -/
def isErr {α : Type} : Except String α → Bool
  | .error _ => true
  | .ok _ => false

/-- A nonempty string of decimal digits. -/
def isDecimalString (s : String) : Bool :=
  decide (s.data ≠ []) && s.data.all Char.isDigit

end PolyClob

namespace PolyClob

/-! ### Bridging lemmas: mantissa-level rounding agrees with value-level
rounding -/

/-- Euclidean division equals a quotient exhibited with its remainder. -/
theorem ediv_helper (a b q r : ℤ) (hb : 0 < b) (h : a = b * q + r)
    (h0 : 0 ≤ r) (h1 : r < b) : a / b = q := by
  subst h
  rw [add_comm, Int.add_mul_ediv_left _ _ (by omega : b ≠ 0),
    Int.ediv_eq_zero_of_lt h0 h1, zero_add]

/-- Ceiling as negated floor of the negation. -/
theorem ceil_eq_neg_floor_neg (x : ℚ) : ⌈x⌉ = -⌊-x⌋ := by
  rw [Int.floor_neg]; omega

/-- The value-level rounding of a nonnegative fraction equals the
mantissa-level rounding of its numerator, for every strategy. -/
theorem ratRoundToInt_div_natCast (strat : RoundStrategy) (a p : ℕ) (hp : 0 < p) :
    ratRoundToInt strat ((a : ℚ) / (p : ℚ)) = (mantissaRound strat a p : ℤ) := by
  have hp0 : (0 : ℚ) < (p : ℚ) := by exact_mod_cast hp
  have hnn : (0 : ℚ) ≤ (a : ℚ) / (p : ℚ) := by positivity
  have hmod : p * (a / p) + a % p = a := Nat.div_add_mod a p
  have hmlt : a % p < p := Nat.mod_lt _ hp
  simp only [mantissaRound]
  obtain ⟨d, hd⟩ : ∃ d, d = a / p := ⟨_, rfl⟩
  obtain ⟨m, hm0⟩ : ∃ m, m = a % p := ⟨_, rfl⟩
  rw [← hd] at hmod
  rw [← hm0] at hmod hmlt
  have hmodZ : (p : ℤ) * (d : ℤ) + (m : ℤ) = (a : ℤ) := by exact_mod_cast hmod
  cases strat with
  | toZero =>
    simp only [ratRoundToInt, if_pos hnn, ← hd]
    have := Rat.floor_natCast_div_natCast a p
    omega
  | awayFromZero =>
    simp only [ratRoundToInt, if_pos hnn, ← hd, ← hm0]
    rw [ceil_eq_neg_floor_neg]
    have hcast : -((a : ℚ) / (p : ℚ)) = ((-(a : ℤ) : ℤ) : ℚ) / ((p : ℕ) : ℚ) := by
      push_cast; ring
    rw [hcast, Rat.floor_intCast_div_natCast]
    by_cases hm : m = 0
    · subst hm
      have heq : -(a : ℤ) = (p : ℤ) * (-(d : ℤ)) + 0 := by
        push_cast at hmodZ
        linear_combination hmodZ
      rw [heq, ediv_helper _ _ _ 0 (by exact_mod_cast hp) rfl le_rfl (by exact_mod_cast hp)]
      simp
    · have heq : -(a : ℤ) = (p : ℤ) * (-(d : ℤ) - 1) + ((p : ℤ) - (m : ℤ)) := by
        linear_combination hmodZ
      rw [ediv_helper _ _ (-(d : ℤ) - 1) ((p : ℤ) - (m : ℤ))
        (by exact_mod_cast hp) heq (by omega) (by omega)]
      simp [hm]
      omega
  | midpointTowardZero =>
    simp only [ratRoundToInt, if_pos hnn, ← hd, ← hm0]
    rw [ceil_eq_neg_floor_neg]
    have hcast : -((a : ℚ) / (p : ℚ) - 1 / 2)
        = (((p : ℤ) - 2 * (a : ℤ) : ℤ) : ℚ) / ((2 * p : ℕ) : ℚ) := by
      push_cast; field_simp; ring
    rw [hcast, Rat.floor_intCast_div_natCast]
    by_cases hm : p < 2 * m
    · have heq : (p : ℤ) - 2 * (a : ℤ)
          = ((2 * p : ℕ) : ℤ) * (-(d : ℤ) - 1) + (3 * (p : ℤ) - 2 * (m : ℤ)) := by
        push_cast
        linear_combination (2 : ℤ) * hmodZ
      rw [ediv_helper _ _ (-(d : ℤ) - 1) _ (by push_cast; omega) heq
        (by omega) (by push_cast; omega)]
      simp [hm]
      omega
    · have heq : (p : ℤ) - 2 * (a : ℤ)
          = ((2 * p : ℕ) : ℤ) * (-(d : ℤ)) + ((p : ℤ) - 2 * (m : ℤ)) := by
        push_cast
        linear_combination (2 : ℤ) * hmodZ
      rw [ediv_helper _ _ (-(d : ℤ)) _ (by push_cast; omega) heq
        (by omega) (by push_cast; omega)]
      simp [hm]

/-- Hitting the half of negative one half rounds to zero. -/
theorem ceil_neg_half : ⌈-(1 / 2 : ℚ)⌉ = 0 := by
  rw [Int.ceil_neg]
  rw [Int.floor_eq_zero_iff.mpr]
  · norm_num
  · constructor <;> norm_num

/-- Every strategy rounds an opposite value to the opposite result. -/
theorem ratRoundToInt_neg (strat : RoundStrategy) (x : ℚ) :
    ratRoundToInt strat (-x) = -(ratRoundToInt strat x) := by
  cases strat <;> simp only [ratRoundToInt] <;>
    rcases lt_trichotomy x 0 with h | h | h
  · rw [if_pos (by linarith), if_neg (by linarith), neg_neg]
  · subst h; norm_num [ceil_neg_half]
  · rw [if_neg (by linarith), if_pos h.le, neg_neg]
  · rw [if_pos (by linarith), if_neg (by linarith), neg_neg]
  · subst h; norm_num
  · rw [if_neg (by linarith), if_pos h.le, neg_neg]
  · rw [if_pos (by linarith), if_neg (by linarith), neg_neg]
  · subst h; norm_num
  · rw [if_neg (by linarith), if_pos h.le, neg_neg]

/-- Rounding at divisor one is the identity. -/
theorem mantissaRound_one (strat : RoundStrategy) (a : ℕ) :
    mantissaRound strat a 1 = a := by
  cases strat <;> simp [mantissaRound, Nat.mod_one]

/-- Every strategy fixes integers. -/
theorem ratRoundToInt_intCast (strat : RoundStrategy) (z : ℤ) :
    ratRoundToInt strat (z : ℚ) = z := by
  rcases le_or_lt 0 z with h | h
  · have hz : ((z.toNat : ℕ) : ℚ) = (z : ℚ) := by exact_mod_cast Int.toNat_of_nonneg h
    have h1 : (z : ℚ) = ((z.toNat : ℕ) : ℚ) / ((1 : ℕ) : ℚ) := by rw [hz]; norm_num
    rw [h1, ratRoundToInt_div_natCast strat z.toNat 1 one_pos, mantissaRound_one]
    omega
  · have hz : (((-z).toNat : ℕ) : ℚ) = ((-z : ℤ) : ℚ) := by
      exact_mod_cast Int.toNat_of_nonneg (by omega : (0:ℤ) ≤ -z)
    have h1 : (z : ℚ) = -((((-z).toNat : ℕ) : ℚ) / ((1 : ℕ) : ℚ)) := by
      rw [hz]; push_cast; norm_num
    rw [h1, ratRoundToInt_neg,
      ratRoundToInt_div_natCast strat (-z).toNat 1 one_pos, mantissaRound_one]
    omega

/-- Rescaling an integer mantissa to a coarser power of ten. -/
theorem toRat_scale_le (m : ℤ) (s k : ℕ) (h : s ≤ k) :
    ((m : ℚ) / 10 ^ s) * 10 ^ k = ((m * 10 ^ (k - s) : ℤ) : ℚ) := by
  have h10 : (10 : ℚ) ^ k = 10 ^ s * 10 ^ (k - s) := by
    rw [← pow_add]; congr 1; omega
  have hs : (10 : ℚ) ^ s ≠ 0 := by positivity
  rw [h10]
  push_cast
  field_simp
  ring

/-- The key refinement: `round_dp_with_strategy` computes the value-level
rounding at `dp` decimal places. -/
theorem toRat_roundDpWith (strat : RoundStrategy) (dp : ℕ) (d : Decimal) :
    (d.roundDpWith strat dp).toRat = ratRoundDp strat dp d.toRat := by
  by_cases hs : d.scale ≤ dp
  · rw [Decimal.roundDpWith, if_pos hs]
    rw [ratRoundDp, Decimal.toRat, toRat_scale_le d.man d.scale dp hs,
      ratRoundToInt_intCast]
    push_cast
    have h10 : (10 : ℚ) ^ dp = 10 ^ d.scale * 10 ^ (dp - d.scale) := by
      rw [← pow_add]; congr 1; omega
    rw [h10]
    have h1 : (10 : ℚ) ^ d.scale ≠ 0 := by positivity
    have h2 : (10 : ℚ) ^ (dp - d.scale) ≠ 0 := by positivity
    field_simp
    ring
  · rw [Decimal.roundDpWith, if_neg hs]
    have hx : d.toRat * 10 ^ dp
        = (d.man : ℚ) / ((10 ^ (d.scale - dp) : ℕ) : ℚ) := by
      rw [Decimal.toRat]
      have h10 : (10 : ℚ) ^ d.scale = 10 ^ dp * 10 ^ (d.scale - dp) := by
        rw [← pow_add]; congr 1; omega
      push_cast
      rw [h10]
      have h1 : (10 : ℚ) ^ dp ≠ 0 := by positivity
      have h2 : (10 : ℚ) ^ (d.scale - dp) ≠ 0 := by positivity
      field_simp
      ring
    rw [ratRoundDp, hx]
    have hppos : 0 < 10 ^ (d.scale - dp) := Nat.pos_pow_of_pos _ (by norm_num)
    by_cases hneg : d.man < 0
    · have habs : (d.man : ℚ) = -((d.man.natAbs : ℕ) : ℚ) := by
        rw [Int.cast_natAbs]
        simp [abs_of_neg (by exact_mod_cast hneg : (d.man : ℚ) < 0)]
      rw [habs, neg_div, ratRoundToInt_neg,
        ratRoundToInt_div_natCast strat d.man.natAbs _ hppos]
      simp only [Decimal.toRat, if_pos hneg]
    · have habs : (d.man : ℚ) = ((d.man.natAbs : ℕ) : ℚ) := by
        rw [Int.cast_natAbs]
        simp [abs_of_nonneg (by exact_mod_cast (not_lt.mp hneg) : (0:ℚ) ≤ (d.man : ℚ))]
      rw [habs, ratRoundToInt_div_natCast strat d.man.natAbs _ hppos]
      simp only [Decimal.toRat, if_neg hneg]

end PolyClob

namespace PolyClob

/-- Multiplication of decimals multiplies values. -/
theorem toRat_mul (a b : Decimal) : (a.mul b).toRat = a.toRat * b.toRat := by
  simp only [Decimal.mul, Decimal.toRat]
  push_cast [pow_add]
  rw [div_mul_div_comm]

/-- A mantissa rescaled to a common larger scale keeps its value. -/
theorem pow_sub_helper (s S : ℕ) (h : s ≤ S) (m : ℤ) :
    ((m * 10 ^ (S - s) : ℤ) : ℚ) / 10 ^ S = (m : ℚ) / 10 ^ s := by
  have h10 : (10 : ℚ) ^ S = 10 ^ s * 10 ^ (S - s) := by
    rw [← pow_add]; congr 1; omega
  have h1 : (10 : ℚ) ^ s ≠ 0 := by positivity
  have h2 : (10 : ℚ) ^ (S - s) ≠ 0 := by positivity
  rw [h10]
  push_cast
  field_simp
  ring

/-- Addition of decimals adds values. -/
theorem toRat_add (a b : Decimal) : (a.add b).toRat = a.toRat + b.toRat := by
  simp only [Decimal.add, Decimal.toRat]
  rw [Int.cast_add, add_div]
  rw [show ((a.man * 10 ^ (max a.scale b.scale - a.scale) : ℤ) : ℚ) / 10 ^ max a.scale b.scale
      = (a.man : ℚ) / 10 ^ a.scale from pow_sub_helper _ _ (le_max_left _ _) _,
    show ((b.man * 10 ^ (max a.scale b.scale - b.scale) : ℤ) : ℚ) / 10 ^ max a.scale b.scale
      = (b.man : ℚ) / 10 ^ b.scale from pow_sub_helper _ _ (le_max_right _ _) _]

/-- Subtraction of decimals subtracts values. -/
theorem toRat_sub (a b : Decimal) : (a.sub b).toRat = a.toRat - b.toRat := by
  simp only [Decimal.sub, Decimal.toRat]
  rw [Int.cast_sub, sub_div]
  rw [show ((a.man * 10 ^ (max a.scale b.scale - a.scale) : ℤ) : ℚ) / 10 ^ max a.scale b.scale
      = (a.man : ℚ) / 10 ^ a.scale from pow_sub_helper _ _ (le_max_left _ _) _,
    show ((b.man * 10 ^ (max a.scale b.scale - b.scale) : ℤ) : ℚ) / 10 ^ max a.scale b.scale
      = (b.man : ℚ) / 10 ^ b.scale from pow_sub_helper _ _ (le_max_right _ _) _]

/-- The decimal order is the value order. -/
theorem le_iff_toRat (a b : Decimal) : a.le b = true ↔ a.toRat ≤ b.toRat := by
  simp only [Decimal.le, decide_eq_true_eq, Decimal.toRat]
  rw [div_le_div_iff₀ (by positivity) (by positivity)]
  constructor <;> intro h <;> exact_mod_cast h

/-- The strict decimal order is the strict value order. -/
theorem lt_iff_toRat (a b : Decimal) : a.lt b = true ↔ a.toRat < b.toRat := by
  simp only [Decimal.lt, decide_eq_true_eq, Decimal.toRat]
  rw [div_lt_div_iff₀ (by positivity) (by positivity)]
  constructor <;> intro h <;> exact_mod_cast h

/-- Decimal key equality is value equality. -/
theorem eqv_iff_toRat (a b : Decimal) : a.eqv b = true ↔ a.toRat = b.toRat := by
  simp only [Decimal.eqv, decide_eq_true_eq, Decimal.toRat]
  rw [div_eq_div_iff (by positivity) (by positivity)]
  constructor <;> intro h <;> exact_mod_cast h

/-- A decimal of scale at most `k` scaled by `10 ^ k` is an integer. -/
theorem den_one_of_scale_le (d : Decimal) (k : ℕ) (h : d.scale ≤ k) :
    (d.toRat * 10 ^ k).den = 1 := by
  rw [Decimal.toRat, toRat_scale_le d.man d.scale k h]
  exact Rat.den_intCast _

/-- Rounding never leaves more than `dp` scale digits. -/
theorem roundDpWith_scale_le (strat : RoundStrategy) (dp : ℕ) (d : Decimal) :
    (d.roundDpWith strat dp).scale ≤ dp := by
  rw [Decimal.roundDpWith]
  split
  · assumption
  · rfl

/-- The amount repair is the identity on amounts within the scale budget. -/
theorem fixAmountRounding_noop (cfg : RoundConfig) (amt : Decimal)
    (h : amt.scale ≤ cfg.amount) : fixAmountRounding cfg amt = amt := by
  rw [fixAmountRounding, if_neg (by omega)]

/-- The specification-side repair is the identity on amounts with at most
`amount_dp` fractional digits. -/
theorem specFixAmount_noop (cfg : RoundConfig) (x : ℚ)
    (h : (x * 10 ^ cfg.amount).den = 1) : specFixAmount cfg x = x := by
  rw [specFixAmount, ratHasFracBeyond, if_neg (by simp [h])]

/-- A rational with denominator one is its numerator. -/
theorem rat_of_den_one (y : ℚ) (h : y.den = 1) : ((y.num : ℤ) : ℚ) = y := by
  conv_rhs => rw [← Rat.num_div_den y]
  rw [h]
  norm_num

/-- The integer-or-round choice in the final conversion is always the
half-toward-zero rounding. -/
theorem spec_z_eq (y : ℚ) :
    (if y.den = 1 then y.num else ratRoundToInt .midpointTowardZero y)
      = ratRoundToInt .midpointTowardZero y := by
  split
  · rename_i h
    rw [← rat_of_den_one y h, ratRoundToInt_intCast]
    rw [rat_of_den_one y h]
  · rfl

/-- `decimal_to_token_u32` computes the specification-side conversion of
the decimal's value. -/
theorem decimalToTokenU32_toRat (d : Decimal) :
    decimalToTokenU32 d = specToTokenUnits d.toRat := by
  simp only [decimalToTokenU32, specToTokenUnits]
  rw [spec_z_eq]
  have ha : (⟨1000000 * d.man, d.scale⟩ : Decimal).toRat = d.toRat * 1000000 := by
    simp only [Decimal.toRat]
    push_cast
    ring
  by_cases hs : 0 < d.scale
  · rw [if_pos hs]
    have hsc : (Decimal.roundDpWith .midpointTowardZero 0
        (⟨1000000 * d.man, d.scale⟩ : Decimal)).scale = 0 := by
      rw [Decimal.roundDpWith, if_neg (by show ¬(d.scale ≤ 0); omega)]
    have hbr := toRat_roundDpWith .midpointTowardZero 0 (⟨1000000 * d.man, d.scale⟩ : Decimal)
    rw [ha] at hbr
    rw [ratRoundDp] at hbr
    simp only [pow_zero, mul_one, div_one] at hbr
    have hman : (Decimal.roundDpWith .midpointTowardZero 0
        (⟨1000000 * d.man, d.scale⟩ : Decimal)).man
        = ratRoundToInt .midpointTowardZero (d.toRat * 1000000) := by
      have h2 := hbr
      rw [Decimal.toRat, hsc] at h2
      simp only [pow_zero, div_one] at h2
      exact_mod_cast h2
    rw [hman]
  · rw [if_neg hs]
    have hs0 : d.scale = 0 := by omega
    have hint : d.toRat * 1000000 = ((1000000 * d.man : ℤ) : ℚ) := by
      rw [Decimal.toRat, hs0]
      push_cast
      ring
    rw [hint, ratRoundToInt_intCast]

/-- The final conversion pair computes the specification-side pair. -/
theorem pairTokens_toRat (a b : Decimal) :
    pairTokens a b = specPairTokens a.toRat b.toRat := by
  rw [pairTokens, specPairTokens, decimalToTokenU32_toRat, decimalToTokenU32_toRat]

/-- Every table entry satisfies `price_dp + size_dp ≤ amount_dp`, so the
notional of rounded legs never exceeds the amount scale budget. -/
theorem roundingConfig_sum (tick : Decimal) (cfg : RoundConfig)
    (h : roundingConfig tick = some cfg) : cfg.price + cfg.size ≤ cfg.amount := by
  unfold roundingConfig at h
  split_ifs at h <;> first
    | (injection h with h2; subst h2; decide)
    | exact absurd h (by simp)

end PolyClob

namespace PolyClob

/-! ### Market-price walk characterization -/

/-- One more level extends the running notional by the level notional. -/
theorem prefixNotional_cons (p : OrderSummary) (ps : List OrderSummary) (k : ℕ) :
    prefixNotional (p :: ps) (k + 1) = levelNotional p + prefixNotional ps k := by
  simp [prefixNotional, List.take_succ_cons]

/-- Accumulating one level adds its notional value. -/
theorem sum_add_level (sum : Decimal) (p : OrderSummary) :
    (sum.add (p.size.mul p.price)).toRat = sum.toRat + levelNotional p := by
  rw [toRat_add, toRat_mul, levelNotional]

/-- The loop returns a price exactly at the first level whose running sum
(offset by the accumulator) reaches the target. -/
theorem calcAux_ok_iff (amt : Decimal) (ps : List OrderSummary) (sum pr : Decimal) :
    calcMarketPriceAux amt sum ps = .ok pr ↔
      ∃ i, ∃ hi : i < ps.length, pr = (ps.get ⟨i, hi⟩).price
        ∧ amt.toRat ≤ sum.toRat + prefixNotional ps (i + 1)
        ∧ ∀ j < i, sum.toRat + prefixNotional ps (j + 1) < amt.toRat := by
  induction ps generalizing sum with
  | nil =>
    simp [calcMarketPriceAux]
  | cons p ps ih =>
    rw [calcMarketPriceAux]
    by_cases hle : amt.le (sum.add (p.size.mul p.price)) = true
    · rw [if_pos hle]
      rw [le_iff_toRat, sum_add_level] at hle
      constructor
      · intro hok
        have hpr : pr = p.price := by
          cases hok
          rfl
        refine ⟨0, by simp, hpr, ?_, by omega⟩
        rw [prefixNotional_cons, prefixNotional]
        simpa using hle
      · rintro ⟨i, hi, hpr, hge, hmin⟩
        rcases Nat.eq_zero_or_pos i with rfl | hipos
        · simp at hpr
          rw [hpr]
        · exfalso
          have h0 := hmin 0 hipos
          rw [prefixNotional_cons, prefixNotional] at h0
          simp at h0
          linarith
    · rw [if_neg hle]
      rw [le_iff_toRat, sum_add_level] at hle
      push_neg at hle
      rw [ih]
      constructor
      · rintro ⟨i, hi, hpr, hge, hmin⟩
        refine ⟨i + 1, by simpa using Nat.succ_lt_succ hi, by simpa using hpr, ?_, ?_⟩
        · rw [prefixNotional_cons]
          rw [sum_add_level] at hge
          linarith
        · intro j hj
          rcases Nat.eq_zero_or_pos j with rfl | hjpos
          · rw [prefixNotional_cons, prefixNotional]
            simpa using hle
          · obtain ⟨j0, rfl⟩ : ∃ j0, j = j0 + 1 := ⟨j - 1, by omega⟩
            have hj0 := hmin j0 (by omega)
            rw [sum_add_level] at hj0
            rw [prefixNotional_cons]
            linarith
      · rintro ⟨i, hi, hpr, hge, hmin⟩
        rcases Nat.eq_zero_or_pos i with rfl | hipos
        · exfalso
          rw [prefixNotional_cons, prefixNotional] at hge
          simp at hge
          linarith
        · obtain ⟨i0, rfl⟩ : ∃ i0, i = i0 + 1 := ⟨i - 1, by omega⟩
          refine ⟨i0, by simpa using Nat.lt_of_succ_lt_succ hi, by simpa using hpr, ?_, ?_⟩
          · rw [prefixNotional_cons] at hge
            rw [sum_add_level]
            linarith
          · intro j hj
            have hj1 := hmin (j + 1) (by omega)
            rw [prefixNotional_cons] at hj1
            rw [sum_add_level]
            linarith

/-- The loop errors exactly when every (offset) running sum stays short. -/
theorem calcAux_err_iff (amt : Decimal) (ps : List OrderSummary) (sum : Decimal) :
    isErr (calcMarketPriceAux amt sum ps) = true ↔
      ∀ k < ps.length, sum.toRat + prefixNotional ps (k + 1) < amt.toRat := by
  induction ps generalizing sum with
  | nil => simp [calcMarketPriceAux, isErr]
  | cons p ps ih =>
    rw [calcMarketPriceAux]
    by_cases hle : amt.le (sum.add (p.size.mul p.price)) = true
    · rw [if_pos hle]
      rw [le_iff_toRat, sum_add_level] at hle
      simp only [isErr]
      constructor
      · intro h
        exact absurd h (by simp)
      · intro h
        exfalso
        have h0 := h 0 (by simp)
        rw [prefixNotional_cons, prefixNotional] at h0
        simp at h0
        linarith
    · rw [if_neg hle]
      rw [le_iff_toRat, sum_add_level] at hle
      push_neg at hle
      rw [ih]
      constructor
      · intro h k hk
        rcases Nat.eq_zero_or_pos k with rfl | hkpos
        · rw [prefixNotional_cons, prefixNotional]
          simpa using hle
        · obtain ⟨k0, rfl⟩ : ∃ k0, k = k0 + 1 := ⟨k - 1, by omega⟩
          have hk0 := h k0 (by simp only [List.length_cons] at hk; omega)
          rw [sum_add_level] at hk0
          rw [prefixNotional_cons]
          linarith
      · intro h k hk
        have hk1 := h (k + 1) (by simp only [List.length_cons]; omega)
        rw [prefixNotional_cons] at hk1
        rw [sum_add_level]
        linarith

/-! ### Small helper lemmas for the remaining claims -/

/-- Swapping the legs of the final conversion swaps the resulting pair. -/
theorem pairTokens_swap (a b : Decimal) :
    pairTokens a b = Option.map (fun uv => (uv.2, uv.1)) (pairTokens b a) := by
  rw [pairTokens, pairTokens]
  cases decimalToTokenU32 a <;> cases decimalToTokenU32 b <;> rfl

/-- `round_dp_with_strategy` is idempotent at a fixed precision. -/
theorem roundDpWith_idem (strat : RoundStrategy) (dp : ℕ) (d : Decimal) :
    (d.roundDpWith strat dp).roundDpWith strat dp = d.roundDpWith strat dp := by
  rw [Decimal.roundDpWith, if_pos (roundDpWith_scale_le strat dp d)]

/-- Every character emitted by the digit printer is a digit. -/
theorem decCharsAux_digits (fuel n : ℕ) :
    ∀ c ∈ decCharsAux fuel n, c.isDigit = true := by
  induction fuel generalizing n with
  | zero => simp [decCharsAux]
  | succ fuel ih =>
    intro c hc
    rw [decCharsAux] at hc
    split at hc
    · rename_i hlt
      simp only [List.mem_singleton] at hc
      subst hc
      interval_cases n <;> decide
    · rw [List.mem_append] at hc
      rcases hc with hc | hc
      · exact ih (n / 10) c hc
      · simp only [List.mem_singleton] at hc
        subst hc
        have hlt : n % 10 < 10 := Nat.mod_lt _ (by norm_num)
        interval_cases h : n % 10 <;> decide

/-- The digit printer never returns the empty list at positive fuel. -/
theorem decCharsAux_ne_nil (fuel n : ℕ) : decCharsAux (fuel + 1) n ≠ [] := by
  rw [decCharsAux]
  split
  · simp
  · simp

/-- Rust integer formatting yields a nonempty all-digit string. -/
theorem toDecString_isDecimalString (n : ℕ) : isDecimalString (toDecString n) = true := by
  rw [isDecimalString, toDecString, decChars]
  apply Bool.and_eq_true_iff.mpr
  constructor
  · simpa using decCharsAux_ne_nil n n
  · rw [List.all_eq_true]
    intro c hc
    exact decCharsAux_digits (n + 1) n c hc

/-- A successfully parsed token id is a nonempty digit string. -/
theorem parseU256Dec_isDecimalString (s : String) (n : ℕ)
    (h : parseU256Dec s = some n) : isDecimalString s = true := by
  rw [parseU256Dec] at h
  split at h
  · rename_i hcond
    rw [isDecimalString]
    simp only [Bool.and_eq_true, decide_eq_true_eq]
    exact ⟨hcond.1, hcond.2⟩
  · exact absurd h (by simp)

/-- The price guard accepts exactly the closed interval
`[tick, 1 - tick]` on values. -/
theorem isPriceInRange_iff (price tick : Decimal) :
    isPriceInRange price tick = true
      ↔ (tick.toRat ≤ price.toRat ∧ price.toRat ≤ 1 - tick.toRat) := by
  have h1 : (Decimal.one.sub tick).toRat = 1 - tick.toRat := by
    rw [toRat_sub]
    simp [Decimal.one, Decimal.toRat]
  rw [isPriceInRange]
  by_cases hb : (price.lt tick || (Decimal.one.sub tick).lt price) = true
  · rw [if_pos hb]
    simp only [Bool.or_eq_true, lt_iff_toRat, h1] at hb
    constructor
    · intro h
      exact absurd h (by simp)
    · rintro ⟨ha, hc⟩
      rcases hb with h | h <;> linarith
  · rw [if_neg hb]
    simp only [Bool.or_eq_true, not_or, Bool.not_eq_true] at hb
    obtain ⟨h2, h3⟩ := hb
    constructor
    · intro _
      constructor
      · by_contra hcon
        push_neg at hcon
        have hx := (lt_iff_toRat price tick).mpr hcon
        rw [hx] at h2
        cases h2
      · by_contra hcon
        push_neg at hcon
        have hx := (lt_iff_toRat (Decimal.one.sub tick) price).mpr (by linarith [h1] )
        rw [hx] at h3
        cases h3
    · intro _
      rfl

end PolyClob

namespace PolyClob

/-! ### The claims -/

/-- Claim C1: for every supported tick size with its round config and every
decimal price and size, `get_order_amounts` on BUY computes exactly the
specified pipeline over the exact values: price rounded half-toward-zero to
`price_dp`, size truncated to `size_dp`, notional repaired at `amount_dp`
(away-from-zero at `amount_dp + 4`, then truncation, only when excess
digits remain), maker leg clamped to 2 and taker leg to 4 decimal places
half-toward-zero, each leg scaled by `10 ^ 6`, rounded half-toward-zero
when a fractional remainder remains, and fatal outside unsigned 32 bits. -/
theorem claim1_buy_amounts (tick : Decimal) (cfg : RoundConfig)
    (h : roundingConfig tick = some cfg) (price size : Decimal) :
    getOrderAmounts .BUY size price cfg = specBuyAmounts cfg price.toRat size.toRat := by
  have hsum := roundingConfig_sum tick cfg h
  simp only [getOrderAmounts, specBuyAmounts, clampAmountPrecision]
  have hps : (price.roundDpWith .midpointTowardZero cfg.price).scale ≤ cfg.price :=
    roundDpWith_scale_le _ _ _
  have hss : (size.roundDpWith .toZero cfg.size).scale ≤ cfg.size :=
    roundDpWith_scale_le _ _ _
  have hnsc : ((size.roundDpWith .toZero cfg.size).mul
      (price.roundDpWith .midpointTowardZero cfg.price)).scale ≤ cfg.amount := by
    simp only [Decimal.mul]
    omega
  have hden : (((size.roundDpWith .toZero cfg.size).mul
      (price.roundDpWith .midpointTowardZero cfg.price)).toRat * 10 ^ cfg.amount).den = 1 :=
    den_one_of_scale_le _ _ hnsc
  rw [fixAmountRounding_noop _ _ hnsc]
  rw [pairTokens_toRat]
  rw [← toRat_roundDpWith .midpointTowardZero cfg.price price,
    ← toRat_roundDpWith .toZero cfg.size size,
    ← toRat_mul, specFixAmount_noop _ _ hden,
    ← toRat_roundDpWith .midpointTowardZero 2,
    ← toRat_roundDpWith .midpointTowardZero 4]

/-- Witness for C1 at tick size 0.01, price 0.35, size 100. -/
theorem claim1_witness :
    roundingConfig ⟨1, 2⟩ = some ⟨2, 2, 4⟩
    ∧ getOrderAmounts .BUY ⟨100, 0⟩ ⟨35, 2⟩ ⟨2, 2, 4⟩
        = specBuyAmounts ⟨2, 2, 4⟩ (Decimal.toRat ⟨35, 2⟩) (Decimal.toRat ⟨100, 0⟩) :=
  ⟨by rfl, claim1_buy_amounts ⟨1, 2⟩ ⟨2, 2, 4⟩ (by rfl) ⟨35, 2⟩ ⟨100, 0⟩⟩

set_option maxRecDepth 200000 in
/-- Claim C2: the L2 HMAC signature is the URL-safe base64 encoding of
HMAC-SHA256, keyed by the base64-decoded secret, over
`timestamp || method || path` with the canonical body appended exactly when
present; and the canonical test vector produces exactly the expected
signature string. -/
theorem claim2_hmac_signature :
    (∀ (secret : String) (timestamp : ℕ) (method reqPath : String)
      (body : Option String) (key : List ℕ),
      base64UrlDecode secret = some key →
      buildHmacSignatureFromStr secret timestamp method reqPath body
        = .ok (base64UrlEncode (hmacSha256 key
            (strBytes (toDecString timestamp ++ method ++ reqPath ++ body.getD "")))))
    ∧ buildHmacSignature "AAAAAAAAAAAAAAAAAAAAAAAAAAAAAAAAAAAAAAAAAAA=" 1000000
        "test-sign" "/orders" (some (Json.obj [("hash", Json.str "0x123")]))
        = .ok "ZwAdJKvoYRlEKDkNMwd5BuwNNtg93kNaR_oU2HrfVvc=" := by
  constructor
  · intro secret timestamp method reqPath body key hk
    rw [buildHmacSignatureFromStr.eq_def, hk]
    cases body with
    | none => simp [Option.getD_none, String.append_empty]
    | some s => rfl
  · rfl

/-- Witness for C2 with the secret `"AAAA"` (three zero bytes). -/
theorem claim2_witness :
    buildHmacSignatureFromStr "AAAA" 7 "GET" "/x" none
      = .ok (base64UrlEncode (hmacSha256 [0, 0, 0]
          (strBytes (toDecString 7 ++ "GET" ++ "/x" ++ Option.getD none "")))) :=
  claim2_hmac_signature.1 "AAAA" 7 "GET" "/x" none [0, 0, 0] (by rfl)

/-- Claim C3: `calculate_market_price` walks the levels in order
accumulating `size * price`, returns the price of the first level at which
the running sum reaches or exceeds the target, and errors exactly when the
sequence is exhausted with every running sum still below the target. -/
theorem claim3_market_price (ps : List OrderSummary) (amt : Decimal) :
    (∀ pr, calculateMarketPrice ps amt = .ok pr ↔
      ∃ i, ∃ hi : i < ps.length, pr = (ps.get ⟨i, hi⟩).price
        ∧ amt.toRat ≤ prefixNotional ps (i + 1)
        ∧ ∀ j < i, prefixNotional ps (j + 1) < amt.toRat)
    ∧ (isErr (calculateMarketPrice ps amt) = true ↔
        ∀ k < ps.length, prefixNotional ps (k + 1) < amt.toRat) := by
  have hz : Decimal.zero.toRat = 0 := by
    simp [Decimal.zero, Decimal.toRat]
  constructor
  · intro pr
    rw [calculateMarketPrice, calcAux_ok_iff]
    simp [hz]
  · rw [calculateMarketPrice, calcAux_err_iff]
    simp [hz]

/-- Witness for C3: a one-level book short of the target errors. -/
theorem claim3_witness :
    isErr (calculateMarketPrice [⟨⟨5, 1⟩, ⟨1, 0⟩⟩] ⟨10, 0⟩) = true :=
  (claim3_market_price [⟨⟨5, 1⟩, ⟨1, 0⟩⟩] ⟨10, 0⟩).2.mpr (by
    intro k hk
    simp only [List.length_cons, List.length_nil] at hk
    obtain rfl : k = 0 := by omega
    norm_num [prefixNotional, levelNotional, Decimal.toRat])

/-- Counterexample to claim C4: on the book `[(0.5, 10), (0.6, 10)]` with
target notional 7 the code returns 0.6, not 0.5 as claimed — the first
level contributes only `10 * 0.5 = 5 < 7`. -/
theorem claim4_counterexample :
    calculateMarketPrice [⟨⟨5, 1⟩, ⟨10, 0⟩⟩, ⟨⟨6, 1⟩, ⟨10, 0⟩⟩] ⟨7, 0⟩
        = .ok ⟨6, 1⟩
    ∧ Decimal.toRat ⟨6, 1⟩ ≠ Decimal.toRat ⟨5, 1⟩ :=
  ⟨by rfl, by norm_num [Decimal.toRat]⟩

/-- Claim C4 as amended: `[(0.5, 10), (0.6, 10)]` with target 7 returns 0.6
(the first level's notional 5 falls short of 7 and the second level's
cumulative 11 reaches it); `[(0.5, 3), (0.6, 10)]` with target 5 returns
0.6; `[(0.5, 1)]` with target 10 fails with a liquidity error. -/
theorem claim4_amended :
    calculateMarketPrice [⟨⟨5, 1⟩, ⟨10, 0⟩⟩, ⟨⟨6, 1⟩, ⟨10, 0⟩⟩] ⟨7, 0⟩
        = .ok ⟨6, 1⟩
    ∧ calculateMarketPrice [⟨⟨5, 1⟩, ⟨3, 0⟩⟩, ⟨⟨6, 1⟩, ⟨10, 0⟩⟩] ⟨5, 0⟩
        = .ok ⟨6, 1⟩
    ∧ isErr (calculateMarketPrice [⟨⟨5, 1⟩, ⟨1, 0⟩⟩] ⟨10, 0⟩) = true :=
  ⟨by rfl, by rfl, by rfl⟩

end PolyClob

namespace PolyClob

/-- Counterexample to claim C5: in the serialized wire form of an order
produced by the builder, the `salt` field is a native JSON number (the
field has Rust type `u64`), not a decimal string. -/
theorem claim5_counterexample :
    ∃ r, buildSignedOrder "0xf00" "0xf00" 0 (fun _ _ _ => Except.ok "0xsig")
        (fun a => some a) 42 "99" Side.BUY 137 "0xex" 100 200 0 ⟨0, 0, "0xtaker"⟩
        = Except.ok r
      ∧ jsonLookup "salt" (serializeSignedOrderRequest r) = some (Json.num 42)
      ∧ ∀ str, jsonLookup "salt" (serializeSignedOrderRequest r)
          ≠ some (Json.str str) := by
  refine ⟨⟨42, "0xf00", "0xf00", "0xtaker", "99", toDecString 100, toDecString 200,
    toDecString 0, toDecString 0, toDecString 0, "BUY", 0, "0xsig"⟩, by rfl, by rfl, ?_⟩
  intro str h
  have h2 : some (Json.num 42) = some (Json.str str) := h
  injection h2 with h3
  exact Json.noConfusion h3

/-- Claim C5 as amended: in the JSON wire form of every builder-produced
order, `tokenId`, `makerAmount`, `takerAmount`, `expiration`, `nonce` and
`feeRateBps` are decimal strings; `side` is the string `"BUY"` or
`"SELL"`; `salt` and `signatureType` are native JSON numbers. -/
theorem claim5_amended (funder signerAddress : String) (sigType : ℕ)
    (sign : OrderRecord → ℕ → String → Except String String)
    (parseAddr : String → Option String) (seed : ℕ) (tokenId : String)
    (side : Side) (chainId : ℕ) (exchange : String)
    (makerAmount takerAmount expiration : ℕ) (extras : ExtraOrderArgs)
    (r : SignedOrderRequest)
    (h : buildSignedOrder funder signerAddress sigType sign parseAddr seed
        tokenId side chainId exchange makerAmount takerAmount expiration extras
        = .ok r) :
    (∀ k ∈ ["tokenId", "makerAmount", "takerAmount", "expiration", "nonce",
        "feeRateBps"],
      ∃ str, jsonLookup k (serializeSignedOrderRequest r) = some (Json.str str)
        ∧ isDecimalString str = true)
    ∧ (jsonLookup "side" (serializeSignedOrderRequest r) = some (Json.str "BUY")
        ∨ jsonLookup "side" (serializeSignedOrderRequest r) = some (Json.str "SELL"))
    ∧ jsonLookup "salt" (serializeSignedOrderRequest r) = some (Json.num r.salt)
    ∧ jsonLookup "signatureType" (serializeSignedOrderRequest r)
        = some (Json.num r.signatureType) := by
  cases hpa : parseAddr extras.taker with
  | none =>
    simp only [buildSignedOrder, hpa] at h
    exact Except.noConfusion h
  | some takerAddress =>
    cases hpt : parseU256Dec tokenId with
    | none =>
      simp only [buildSignedOrder, hpa, hpt] at h
      exact Except.noConfusion h
    | some tid =>
      cases hsg : sign ⟨seed, funder, signerAddress, takerAddress, tid, makerAmount,
          takerAmount, expiration, extras.nonce, extras.feeRateBps,
          side.toNat, sigType⟩ chainId exchange with
      | error e =>
        simp only [buildSignedOrder, hpa, hpt, hsg] at h
        exact Except.noConfusion h
      | ok signature =>
        simp only [buildSignedOrder, hpa, hpt, hsg, Except.ok.injEq] at h
        subst h
        refine ⟨?_, ?_, rfl, rfl⟩
        · intro k hk
          fin_cases hk
          · exact ⟨tokenId, rfl, parseU256Dec_isDecimalString tokenId tid hpt⟩
          · exact ⟨toDecString makerAmount, rfl, toDecString_isDecimalString _⟩
          · exact ⟨toDecString takerAmount, rfl, toDecString_isDecimalString _⟩
          · exact ⟨toDecString expiration, rfl, toDecString_isDecimalString _⟩
          · exact ⟨toDecString extras.nonce, rfl, toDecString_isDecimalString _⟩
          · exact ⟨toDecString extras.feeRateBps, rfl, toDecString_isDecimalString _⟩
        · cases side
          · exact Or.inl rfl
          · exact Or.inr rfl

/-- Witness for the amended C5 at a concrete BUY order. -/
theorem claim5_witness :
    (∀ k ∈ ["tokenId", "makerAmount", "takerAmount", "expiration", "nonce",
        "feeRateBps"],
      ∃ str, jsonLookup k (serializeSignedOrderRequest
          ⟨42, "0xf00", "0xf00", "0xtaker", "99", toDecString 100, toDecString 200,
           toDecString 0, toDecString 0, toDecString 0, "BUY", 0, "0xsig"⟩)
        = some (Json.str str) ∧ isDecimalString str = true)
    ∧ (jsonLookup "side" (serializeSignedOrderRequest
          ⟨42, "0xf00", "0xf00", "0xtaker", "99", toDecString 100, toDecString 200,
           toDecString 0, toDecString 0, toDecString 0, "BUY", 0, "0xsig"⟩)
        = some (Json.str "BUY")
      ∨ jsonLookup "side" (serializeSignedOrderRequest
          ⟨42, "0xf00", "0xf00", "0xtaker", "99", toDecString 100, toDecString 200,
           toDecString 0, toDecString 0, toDecString 0, "BUY", 0, "0xsig"⟩)
        = some (Json.str "SELL"))
    ∧ jsonLookup "salt" (serializeSignedOrderRequest
          ⟨42, "0xf00", "0xf00", "0xtaker", "99", toDecString 100, toDecString 200,
           toDecString 0, toDecString 0, toDecString 0, "BUY", 0, "0xsig"⟩)
        = some (Json.num 42)
    ∧ jsonLookup "signatureType" (serializeSignedOrderRequest
          ⟨42, "0xf00", "0xf00", "0xtaker", "99", toDecString 100, toDecString 200,
           toDecString 0, toDecString 0, toDecString 0, "BUY", 0, "0xsig"⟩)
        = some (Json.num 0) :=
  claim5_amended "0xf00" "0xf00" 0 (fun _ _ _ => Except.ok "0xsig")
    (fun a => some a) 42 "99" Side.BUY 137 "0xex" 100 200 0 ⟨0, 0, "0xtaker"⟩
    ⟨42, "0xf00", "0xf00", "0xtaker", "99", toDecString 100, toDecString 200,
     toDecString 0, toDecString 0, toDecString 0, "BUY", 0, "0xsig"⟩ (by rfl)

/-- Claim C6: the price guard accepts exactly the closed interval
`[tick_size, 1 - tick_size]`, and the client rejects a limit order whose
price violates the range before any signing work: the rejection holds for
every signing function. -/
theorem claim6_price_range :
    (∀ price tick : Decimal, isPriceInRange price tick = true
      ↔ (tick.toRat ≤ price.toRat ∧ price.toRat ≤ 1 - tick.toRat))
    ∧ ∀ (registry : ℕ → Bool → Option ContractConfig)
        (sign : OrderRecord → ℕ → String → Except String String)
        (parseAddr : String → Option String)
        (funder signerAddress : String) (sigType seed chainId : ℕ)
        (orderArgs : OrderArgs) (expiration : ℕ) (extras : ExtraOrderArgs)
        (resolvedTick : Decimal) (negRisk : Bool),
        isPriceInRange orderArgs.price resolvedTick = false →
        clientCreateOrder registry sign parseAddr funder signerAddress sigType
            seed chainId orderArgs expiration extras resolvedTick negRisk
          = .error "Price is not in range of tick_size" := by
  constructor
  · exact isPriceInRange_iff
  · intro registry sign parseAddr funder signerAddress sigType seed chainId
      orderArgs expiration extras resolvedTick negRisk h
    rw [clientCreateOrder, if_neg (by simp [h])]

/-- Witness for C6: a price of 2 is rejected at tick size 0.01 for an
arbitrary concrete signer. -/
theorem claim6_witness :
    clientCreateOrder (fun _ _ => none) (fun _ _ _ => Except.ok "0xsig")
        (fun a => some a) "0xf" "0xf" 0 7 137 ⟨"99", ⟨2, 0⟩, ⟨1, 0⟩, .BUY⟩ 0
        ⟨0, 0, "0xt"⟩ ⟨1, 2⟩ false
      = .error "Price is not in range of tick_size" :=
  claim6_price_range.2 (fun _ _ => none) (fun _ _ _ => Except.ok "0xsig")
    (fun a => some a) "0xf" "0xf" 0 7 137 ⟨"99", ⟨2, 0⟩, ⟨1, 0⟩, .BUY⟩ 0
    ⟨0, 0, "0xt"⟩ ⟨1, 2⟩ false (by rfl)

/-- Claim C7: for every supported tick size and identical inputs, SELL
returns exactly the swap of BUY: the quote leg keeps 2 and the token leg 4
decimal places on both sides, with maker and taker roles exchanged. -/
theorem claim7_sell_swaps (tick : Decimal) (cfg : RoundConfig)
    (h : roundingConfig tick = some cfg) (size price : Decimal) :
    getOrderAmounts .SELL size price cfg
      = Option.map (fun uv => (uv.2, uv.1)) (getOrderAmounts .BUY size price cfg) := by
  simp only [getOrderAmounts, clampAmountPrecision]
  exact pairTokens_swap _ _

/-- Witness for C7 at tick size 0.01, size 100, price 0.35. -/
theorem claim7_witness :
    getOrderAmounts .SELL ⟨100, 0⟩ ⟨35, 2⟩ ⟨2, 2, 4⟩
      = Option.map (fun uv => (uv.2, uv.1))
          (getOrderAmounts .BUY ⟨100, 0⟩ ⟨35, 2⟩ ⟨2, 2, 4⟩) :=
  claim7_sell_swaps ⟨1, 2⟩ ⟨2, 2, 4⟩ (by rfl) ⟨100, 0⟩ ⟨35, 2⟩

/-- Claim C8: the rounding pipeline is idempotent: feeding the
already-rounded price (half-toward-zero at `price_dp`) and size (truncated
at `size_dp`) back into `get_order_amounts` reproduces the same integer
units, on both sides, for every supported tick size. -/
theorem claim8_idempotent (tick : Decimal) (cfg : RoundConfig)
    (h : roundingConfig tick = some cfg) (side : Side) (size price : Decimal) :
    getOrderAmounts side (size.roundDpWith .toZero cfg.size)
        (price.roundDpWith .midpointTowardZero cfg.price) cfg
      = getOrderAmounts side size price cfg := by
  cases side <;> simp only [getOrderAmounts, roundDpWith_idem]

/-- Witness for C8 at tick size 0.1, SELL, size 3.456, price 0.789. -/
theorem claim8_witness :
    getOrderAmounts .SELL (Decimal.roundDpWith .toZero 2 ⟨3456, 3⟩)
        (Decimal.roundDpWith .midpointTowardZero 1 ⟨789, 3⟩) ⟨1, 2, 3⟩
      = getOrderAmounts .SELL ⟨3456, 3⟩ ⟨789, 3⟩ ⟨1, 2, 3⟩ :=
  claim8_idempotent ⟨1, 1⟩ ⟨1, 2, 3⟩ (by rfl) .SELL ⟨3456, 3⟩ ⟨789, 3⟩

end PolyClob

namespace PolyClob

/-- Claim C9: `create_order` and `create_market_order` fail with an error —
producing no signed order, with a result independent of (and never
invoking) the signing function, which stays universally quantified —
whenever the options lack a concrete tick size, lack a concrete neg-risk
flag, or the contract registry has no entry for the chain/neg-risk pair;
the amount conversions are assumed to succeed where the Rust code computes
them before the failing check. -/
theorem claim9_config_errors
    (registry : ℕ → Bool → Option ContractConfig)
    (sign : OrderRecord → ℕ → String → Except String String)
    (parseAddr : String → Option String)
    (funder signerAddress : String) (sigType seed chainId : ℕ)
    (orderArgs : OrderArgs) (marketArgs : MarketOrderArgs) (price : Decimal)
    (expiration : ℕ) (extras : ExtraOrderArgs) (options : CreateOrderOptions) :
    (options.tickSize = none →
      createOrder registry sign parseAddr funder signerAddress sigType seed
          chainId orderArgs expiration extras options
        = .error "Cannot create order without tick size"
      ∧ createMarketOrder registry sign parseAddr funder signerAddress sigType
          seed chainId marketArgs price extras options
        = .error "Cannot create order without tick size")
    ∧ (∀ tick cfg, options.tickSize = some tick → roundingConfig tick = some cfg →
        options.negRisk = none →
        (getOrderAmounts orderArgs.side orderArgs.size orderArgs.price cfg).isSome
          = true →
        (getMarketOrderAmounts marketArgs.amount price cfg).isSome = true →
        createOrder registry sign parseAddr funder signerAddress sigType seed
            chainId orderArgs expiration extras options
          = .error "Cannot create order without neg_risk"
        ∧ createMarketOrder registry sign parseAddr funder signerAddress sigType
            seed chainId marketArgs price extras options
          = .error "Cannot create order without neg_risk")
    ∧ (∀ tick cfg negRisk, options.tickSize = some tick →
        roundingConfig tick = some cfg → options.negRisk = some negRisk →
        registry chainId negRisk = none →
        (getOrderAmounts orderArgs.side orderArgs.size orderArgs.price cfg).isSome
          = true →
        (getMarketOrderAmounts marketArgs.amount price cfg).isSome = true →
        createOrder registry sign parseAddr funder signerAddress sigType seed
            chainId orderArgs expiration extras options
          = .error "No contract found with given chain_id and neg_risk"
        ∧ createMarketOrder registry sign parseAddr funder signerAddress sigType
            seed chainId marketArgs price extras options
          = .error "No contract found with given chain_id and neg_risk") := by
  refine ⟨?_, ?_, ?_⟩
  · intro htick
    constructor
    · simp only [createOrder, htick]
    · simp only [createMarketOrder, htick]
  · intro tick cfg htick hcfg hneg hga hgm
    obtain ⟨a, ha⟩ := Option.isSome_iff_exists.mp hga
    obtain ⟨b, hb⟩ := Option.isSome_iff_exists.mp hgm
    constructor
    · simp only [createOrder, htick, hcfg, ha, hneg]
    · simp only [createMarketOrder, htick, hcfg, hb, hneg]
  · intro tick cfg negRisk htick hcfg hneg hreg hga hgm
    obtain ⟨a, ha⟩ := Option.isSome_iff_exists.mp hga
    obtain ⟨b, hb⟩ := Option.isSome_iff_exists.mp hgm
    constructor
    · simp only [createOrder, htick, hcfg, ha, hneg, hreg]
    · simp only [createMarketOrder, htick, hcfg, hb, hneg, hreg]

/-- Witness for C9: all three configuration failures at concrete inputs. -/
theorem claim9_witness :
    (createOrder (fun _ _ => none) (fun _ _ _ => Except.ok "0xsig")
        (fun a => some a) "0xf" "0xf" 0 7 137 ⟨"99", ⟨5, 1⟩, ⟨10, 0⟩, .BUY⟩ 0
        ⟨0, 0, "0xt"⟩ ⟨none, some true⟩
      = .error "Cannot create order without tick size")
    ∧ (createOrder (fun _ _ => none) (fun _ _ _ => Except.ok "0xsig")
        (fun a => some a) "0xf" "0xf" 0 7 137 ⟨"99", ⟨5, 1⟩, ⟨10, 0⟩, .BUY⟩ 0
        ⟨0, 0, "0xt"⟩ ⟨some ⟨1, 2⟩, none⟩
      = .error "Cannot create order without neg_risk")
    ∧ (createMarketOrder (fun _ _ => none) (fun _ _ _ => Except.ok "0xsig")
        (fun a => some a) "0xf" "0xf" 0 7 137 ⟨"99", ⟨10, 0⟩⟩ ⟨5, 1⟩
        ⟨0, 0, "0xt"⟩ ⟨some ⟨1, 2⟩, some false⟩
      = .error "No contract found with given chain_id and neg_risk") :=
  ⟨(claim9_config_errors (fun _ _ => none) (fun _ _ _ => Except.ok "0xsig")
      (fun a => some a) "0xf" "0xf" 0 7 137 ⟨"99", ⟨5, 1⟩, ⟨10, 0⟩, .BUY⟩
      ⟨"99", ⟨10, 0⟩⟩ ⟨5, 1⟩ 0 ⟨0, 0, "0xt"⟩ ⟨none, some true⟩).1 rfl |>.1,
   (claim9_config_errors (fun _ _ => none) (fun _ _ _ => Except.ok "0xsig")
      (fun a => some a) "0xf" "0xf" 0 7 137 ⟨"99", ⟨5, 1⟩, ⟨10, 0⟩, .BUY⟩
      ⟨"99", ⟨10, 0⟩⟩ ⟨5, 1⟩ 0 ⟨0, 0, "0xt"⟩ ⟨some ⟨1, 2⟩, none⟩).2.1
      ⟨1, 2⟩ ⟨2, 2, 4⟩ rfl (by rfl) rfl (by rfl) (by rfl) |>.1,
   (claim9_config_errors (fun _ _ => none) (fun _ _ _ => Except.ok "0xsig")
      (fun a => some a) "0xf" "0xf" 0 7 137 ⟨"99", ⟨5, 1⟩, ⟨10, 0⟩, .BUY⟩
      ⟨"99", ⟨10, 0⟩⟩ ⟨5, 1⟩ 0 ⟨0, 0, "0xt"⟩ ⟨some ⟨1, 2⟩, some false⟩).2.2
      ⟨1, 2⟩ ⟨2, 2, 4⟩ false rfl (by rfl) rfl rfl (by rfl) (by rfl) |>.2⟩

/-- Claim C10: a successful `create_l2_headers` call returns the canonical
body exactly when a body was supplied (and then it is the canonical JSON
serialization), emits exactly the five `poly_*` headers, and its
`poly_signature` value is the HMAC over
`timestamp || method || path || canonical_body` (nothing appended when no
body was supplied). -/
theorem claim10_l2_headers (address : String) (timestamp : ℕ)
    (apiCreds : ApiCreds) (method reqPath : String) (body : Option Json)
    (hs : List (String × String)) (cb : Option String)
    (h : createL2Headers address timestamp apiCreds method reqPath body
        = .ok (hs, cb)) :
    cb = body.map formatHmacBody
    ∧ (cb.isSome ↔ body.isSome)
    ∧ hs.map Prod.fst
        = ["poly_address", "poly_signature", "poly_timestamp", "poly_api_key",
           "poly_passphrase"]
    ∧ ∀ key, base64UrlDecode apiCreds.secret = some key →
        hs.lookup "poly_signature"
          = some (base64UrlEncode (hmacSha256 key (strBytes
              (toDecString timestamp ++ method ++ reqPath
                ++ (body.map formatHmacBody).getD "")))) := by
  cases hsig : buildHmacSignatureFromStr apiCreds.secret timestamp method reqPath
      (body.map formatHmacBody) with
  | error e =>
    simp only [createL2Headers, hsig] at h
    exact Except.noConfusion h
  | ok sig =>
    simp only [createL2Headers, hsig, Except.ok.injEq, Prod.mk.injEq] at h
    obtain ⟨hhs, hcb⟩ := h
    subst hhs
    subst hcb
    refine ⟨rfl, ?_, rfl, ?_⟩
    · cases body <;> simp
    · intro key hk
      rw [buildHmacSignatureFromStr.eq_def, hk] at hsig
      have hsig2 : Except.ok (α := String) (base64UrlEncode (hmacSha256 key (strBytes
          (match body.map formatHmacBody with
           | none => toDecString timestamp ++ method ++ reqPath
           | some s => toDecString timestamp ++ method ++ reqPath ++ s))))
          = Except.ok (α := String) sig := hsig
    -- the message in the definition matches the stated concatenation
      injection hsig2 with hsig3
      rw [← hsig3]
      cases body with
      | none => simp [String.append_empty, List.lookup]
      | some j => simp [List.lookup]

set_option maxRecDepth 200000 in
/-- Witness for C10 with a concrete body and the all-zero secret. -/
theorem claim10_witness :
    (some (formatHmacBody (Json.obj [("hash", Json.str "0x123")]))
        = Option.map formatHmacBody (some (Json.obj [("hash", Json.str "0x123")])))
    ∧ ((some (formatHmacBody (Json.obj [("hash", Json.str "0x123")]))).isSome
        ↔ (some (Json.obj [("hash", Json.str "0x123")])).isSome)
    ∧ ([("poly_address", "0xaddr"),
        ("poly_signature", "ZwAdJKvoYRlEKDkNMwd5BuwNNtg93kNaR_oU2HrfVvc="),
        ("poly_timestamp", toDecString 1000000),
        ("poly_api_key", "key"), ("poly_passphrase", "pass")].map Prod.fst
        = ["poly_address", "poly_signature", "poly_timestamp", "poly_api_key",
           "poly_passphrase"])
    ∧ ∀ key, base64UrlDecode "AAAAAAAAAAAAAAAAAAAAAAAAAAAAAAAAAAAAAAAAAAA="
          = some key →
        [("poly_address", "0xaddr"),
         ("poly_signature", "ZwAdJKvoYRlEKDkNMwd5BuwNNtg93kNaR_oU2HrfVvc="),
         ("poly_timestamp", toDecString 1000000),
         ("poly_api_key", "key"), ("poly_passphrase", "pass")].lookup
            "poly_signature"
          = some (base64UrlEncode (hmacSha256 key (strBytes
              (toDecString 1000000 ++ "test-sign" ++ "/orders"
                ++ ((some (Json.obj [("hash", Json.str "0x123")])).map
                      formatHmacBody).getD "")))) :=
  claim10_l2_headers "0xaddr" 1000000 ⟨"key",
      "AAAAAAAAAAAAAAAAAAAAAAAAAAAAAAAAAAAAAAAAAAA=", "pass"⟩
    "test-sign" "/orders" (some (Json.obj [("hash", Json.str "0x123")]))
    [("poly_address", "0xaddr"),
     ("poly_signature", "ZwAdJKvoYRlEKDkNMwd5BuwNNtg93kNaR_oU2HrfVvc="),
     ("poly_timestamp", toDecString 1000000),
     ("poly_api_key", "key"), ("poly_passphrase", "pass")]
    (some (formatHmacBody (Json.obj [("hash", Json.str "0x123")]))) (by rfl)

end PolyClob
